import Mathlib

/-
Verification development for the Zmem memory-statistics collector
(src/src/memory.rs).  The two collectors are embedded shallowly:

* `MemoryStats.update` (system summary, `/proc/meminfo`) is modelled by
  `Zmem.memUpdate`, which takes the file contents as a list of characters
  instead of reading the file.
* `ProcessMemoryStats.update` (per-process `/proc/<pid>/smaps_rollup`) is
  modelled by `Zmem.procUpdate`, which takes the command-name lookup result
  and the file contents as parameters.

Rust `u64` arithmetic is modelled on `Nat` with explicit reduction modulo
2^64 (release-mode wrapping semantics).  Rust `f64` is modelled by the
inductive `Zmem.F64`; the only floating-point operation the source performs
is one division whose zero-divisor behaviour (NaN / infinity) is modelled
exactly per IEEE 754; the value of a finite quotient is kept as an exact
rational (no claim depends on rounding).

In-place mutation of `&mut self` with early `?` return is modelled by
returning, on error, the error kind together with the record state at the
moment of the early return.  The slice expression `&line[..10]`, which
panics on a buffered line shorter than 10 bytes, is modelled by the
distinguished outcome `ProcErr.sliceOutOfBounds` (a panic aborts the
program; it is kept separate from the `Result` errors).
-/

namespace Zmem

/-- Modulus of Rust `u64` arithmetic. -/
def U64 : Nat := 18446744073709551616

/-- Wrapping `u64` addition (release-mode semantics of `a + b`). -/
def wadd (a b : Nat) : Nat := (a + b) % U64

/-- Wrapping `u64` subtraction (release-mode semantics of `a - b`). -/
def wsub (a b : Nat) : Nat := (((a : Int) - (b : Int)) % (U64 : Int)).toNat

/-- Model of Rust `f64` restricted to what the source needs: finite values
are kept as exact rationals, plus the non-finite values NaN and the two
infinities. -/
inductive F64 where
  | finite (v : ℚ)
  | nan
  | inf
  | neginf
deriving DecidableEq

/-- Conversion `u64 as f64` (every value that matters here, 0 versus
nonzero, converts exactly). -/
def natF64 (n : Nat) : F64 := .finite (n : ℚ)

/-- IEEE-754 division on the `F64` model.  Only the finite/finite case is
reachable from the source; the finite nonzero-divisor quotient is modelled
as the exact rational. -/
def fdiv : F64 → F64 → F64
  | .nan, _ => .nan
  | _, .nan => .nan
  | .inf, _ => .inf
  | .neginf, _ => .neginf
  | .finite a, .inf => if a = 0 then .finite 0 else .finite 0
  | .finite a, .neginf => if a = 0 then .finite 0 else .finite 0
  | .finite a, .finite b =>
      if b = 0 then
        (if a = 0 then .nan else if 0 < a then .inf else .neginf)
      else .finite (a / b)

/-- Finiteness test on the `F64` model. -/
def F64.isFinite : F64 → Bool
  | .finite _ => true
  | _ => false

/-! ### Character-level text model

The input files are lists of characters (inputs are ASCII).  The helpers
below reproduce the Rust primitives the source uses: `str::lines`,
`str::split_whitespace`, `BufRead::read_line`, `str::parse::<u64>`. -/

/-- Whitespace test used by `split_whitespace`. -/
def isWs (c : Char) : Bool := c.isWhitespace

/-- Accumulator-style worker for `wsTokens`. -/
def wsTokensAux (cur : List Char) : List Char → List (List Char)
  | [] => if cur.isEmpty then [] else [cur.reverse]
  | c :: cs =>
      if isWs c then
        (if cur.isEmpty then wsTokensAux [] cs
         else cur.reverse :: wsTokensAux [] cs)
      else wsTokensAux (c :: cur) cs

/-- Model of Rust `str::split_whitespace`: the nonempty maximal runs of
non-whitespace characters. -/
def wsTokens (l : List Char) : List (List Char) := wsTokensAux [] l

/-- Split at every newline character; each `'\n'` terminates a piece. -/
def splitNL : List Char → List (List Char)
  | [] => [[]]
  | c :: cs =>
      if c = '\n' then [] :: splitNL cs
      else
        match splitNL cs with
        | [] => [[c]]
        | l :: ls => (c :: l) :: ls

/-- Strip one trailing carriage return, as `str::lines` does. -/
def dropCR (l : List Char) : List Char :=
  match l.reverse with
  | '\r' :: rest => rest.reverse
  | _ => l

/-- Model of Rust `str::lines`: split on `'\n'`, drop a final empty piece
produced by a trailing newline, strip a trailing `'\r'` from each line. -/
def rustLines (cs : List Char) : List (List Char) :=
  let ps := splitNL cs
  (match ps.reverse with
   | [] :: rest => rest.reverse
   | _ => ps).map dropCR

/-- Model of the `BufRead::read_line` loop: the input cut into chunks, each
chunk keeping its terminating `'\n'`; a final chunk without a newline is
kept as is.  An empty input yields no chunks. -/
def chunksNL : List Char → List (List Char)
  | [] => []
  | c :: cs =>
      if c = '\n' then ['\n'] :: chunksNL cs
      else
        match chunksNL cs with
        | [] => [[c]]
        | l :: ls => (c :: l) :: ls

/-- Decimal value of a digit list. -/
def digitsVal (l : List Char) : Nat :=
  l.foldl (fun a c => a * 10 + (c.toNat - 48)) 0

/-- Model of Rust `str::parse::<u64>`: an optional leading `'+'`, then a
nonempty run of ASCII digits whose value fits in a `u64`; anything else
fails. -/
def parseU64 (t : List Char) : Option Nat :=
  let t' := match t with
    | '+' :: r => r
    | _ => t
  if t'.isEmpty then none
  else if t'.all Char.isDigit then
    (if digitsVal t' < U64 then some (digitsVal t') else none)
  else none

/-- Modelled from the spec: `parse_value` from `src/utils.rs`, which is not
under `src/`.  Per the spec it parses the numeric field that remains after
the fixed label width: leading whitespace is skipped and the first
whitespace-delimited token must be an unsigned integer (the trailing unit
suffix is ignored); a malformed numeric token is a failure. -/
def parseValue (cs : List Char) : Option Nat :=
  match wsTokens cs with
  | [] => none
  | t :: _ =>
      if t.all Char.isDigit then
        (if digitsVal t < U64 then some (digitsVal t) else none)
      else none

/-! ### System collector: `MemoryStats` -/

/-- Record of `struct MemoryStats` (src/src/memory.rs, lines 9-29).  The
source field `compression_ratio : f64` is named `compression_factor` here;
all other names are kept. -/
@[ext] structure MemoryStats where
  total : Nat
  free : Nat
  available : Nat
  used : Nat
  shared : Nat
  buffers : Nat
  cached : Nat
  swap_total : Nat
  swap_free : Nat
  zswap : Nat
  zswap_compressed : Nat
  swap_cached : Nat
  compression_factor : F64
  swap_used : Nat
  totalvmem : Nat
  freevmem : Nat
  usedvmem : Nat
  availablevmem : Nat
deriving DecidableEq

/-- `MemoryStats::new` / `Default`: all counters zero, ratio `0.0`. -/
def MemoryStats.new : MemoryStats :=
  ⟨0, 0, 0, 0, 0, 0, 0, 0, 0, 0, 0, 0, .finite 0, 0, 0, 0, 0, 0⟩

/-- Error kinds of the system collector's parse loop. -/
inductive MemErr where
  | badFileFormat
  | invalidNumber
deriving DecidableEq

/-- The recognized keys, in source order (match arms of lines 47-61). -/
def kMemTotal : List Char := "MemTotal:".toList
def kMemFree : List Char := "MemFree:".toList
def kMemAvailable : List Char := "MemAvailable:".toList
def kMemUsed : List Char := "MemUsed:".toList
def kShmem : List Char := "Shmem:".toList
def kBuffers : List Char := "Buffers:".toList
def kCached : List Char := "Cached:".toList
def kSwapTotal : List Char := "SwapTotal:".toList
def kSwapFree : List Char := "SwapFree:".toList
def kZswap : List Char := "Zswap:".toList
def kZswapped : List Char := "Zswapped:".toList
def kSwapCached : List Char := "SwapCached:".toList

/-- All 12 keys the source's `match` recognizes. -/
def keys12 : List (List Char) :=
  [kMemTotal, kMemFree, kMemAvailable, kMemUsed, kShmem, kBuffers, kCached,
   kSwapTotal, kSwapFree, kZswap, kZswapped, kSwapCached]

/-- The 11 keys of the spec's data-model table (§3): `keys12` without
`MemUsed:`. -/
def keys11 : List (List Char) :=
  [kMemTotal, kMemFree, kMemAvailable, kShmem, kBuffers, kCached,
   kSwapTotal, kSwapFree, kZswap, kZswapped, kSwapCached]

/-- Dispatch of one system-summary line on its token list: require two
tokens, match the key.  `Zswap:` feeds `zswap_compressed` and `Zswapped:`
feeds `zswap`, as in the source (lines 43-61). -/
def applyMemTokens (s : MemoryStats) : List (List Char) → Except MemErr MemoryStats
  | key :: value :: _ =>
      if key = kMemTotal then
        match parseU64 value with
        | some n => .ok { s with total := n }
        | none => .error .invalidNumber
      else if key = kMemFree then
        match parseU64 value with
        | some n => .ok { s with free := n }
        | none => .error .invalidNumber
      else if key = kMemAvailable then
        match parseU64 value with
        | some n => .ok { s with available := n }
        | none => .error .invalidNumber
      else if key = kMemUsed then
        match parseU64 value with
        | some n => .ok { s with used := n }
        | none => .error .invalidNumber
      else if key = kShmem then
        match parseU64 value with
        | some n => .ok { s with shared := n }
        | none => .error .invalidNumber
      else if key = kBuffers then
        match parseU64 value with
        | some n => .ok { s with buffers := n }
        | none => .error .invalidNumber
      else if key = kCached then
        match parseU64 value with
        | some n => .ok { s with cached := n }
        | none => .error .invalidNumber
      else if key = kSwapTotal then
        match parseU64 value with
        | some n => .ok { s with swap_total := n }
        | none => .error .invalidNumber
      else if key = kSwapFree then
        match parseU64 value with
        | some n => .ok { s with swap_free := n }
        | none => .error .invalidNumber
      else if key = kZswap then
        match parseU64 value with
        | some n => .ok { s with zswap_compressed := n }
        | none => .error .invalidNumber
      else if key = kZswapped then
        match parseU64 value with
        | some n => .ok { s with zswap := n }
        | none => .error .invalidNumber
      else if key = kSwapCached then
        match parseU64 value with
        | some n => .ok { s with swap_cached := n }
        | none => .error .invalidNumber
      else .ok s
  | _ => .error .badFileFormat

/-- One iteration of the parse loop of `MemoryStats::update` (lines
40-62): split the line on whitespace, then dispatch. -/
def applyMemLine (s : MemoryStats) (l : List Char) : Except MemErr MemoryStats :=
  applyMemTokens s (wsTokens l)

/-- The parse loop over all lines.  On error the record state reached so
far is returned with the error kind (the failing line assigns nothing, as
`?` returns before the assignment). -/
def memFold (s : MemoryStats) : List (List Char) → Except (MemErr × MemoryStats) MemoryStats
  | [] => .ok s
  | l :: ls =>
      match applyMemLine s l with
      | .ok s' => memFold s' ls
      | .error e => .error (e, s)

/-- Derivation phase of `MemoryStats::update` (lines 63-69), in source
order; `usedvmem` uses the freshly computed `used` and `swap_used`. -/
def derive (s : MemoryStats) : MemoryStats :=
  let used' := wsub (wsub (wsub s.total s.free) s.buffers) s.cached
  let swap_used' := wsub s.swap_total s.swap_free
  { s with
      used := used'
      swap_used := swap_used'
      compression_factor := fdiv (natF64 s.zswap) (natF64 s.zswap_compressed)
      totalvmem := wadd s.total s.swap_total
      freevmem := wadd s.free s.swap_free
      usedvmem := wadd used' swap_used'
      availablevmem := wadd s.available s.swap_free }

/-- `MemoryStats::update` on an explicit line list. -/
def memUpdateLines (s : MemoryStats) (ls : List (List Char)) :
    Except (MemErr × MemoryStats) MemoryStats :=
  (memFold s ls).map derive

/-- `MemoryStats::update` (lines 38-72) with the file contents passed in
place of reading `/proc/meminfo`. -/
def memUpdate (s : MemoryStats) (contents : List Char) :
    Except (MemErr × MemoryStats) MemoryStats :=
  memUpdateLines s (rustLines contents)

/-! ### Process collector: `ProcessMemoryStats` -/

/-- Record of `struct ProcessMemoryStats` (lines 148-157); strings are
character lists. -/
@[ext] structure ProcessMemoryStats where
  pid : Nat
  username : List Char
  command : List Char
  swap : Nat
  uss : Nat
  pss : Nat
  rss : Nat
deriving DecidableEq

/-- `ProcessMemoryStats::new` / `Default`. -/
def ProcessMemoryStats.new : ProcessMemoryStats := ⟨0, [], [], 0, 0, 0, 0⟩

/-- Outcomes of the process collector other than success.
`sliceOutOfBounds` models the panic of `&line[..10]` on a buffered line
shorter than 10 characters. -/
inductive ProcErr where
  | processLookupFailed
  | invalidNumber
  | sliceOutOfBounds
deriving DecidableEq

/-- The five recognized 10-character prefixes (match arms of lines 189-195,
verbatim). -/
def preRss : List Char := "Rss:      ".toList
def prePss : List Char := "Pss:      ".toList
def prePrivCl : List Char := "Private_Cl".toList
def prePrivDi : List Char := "Private_Di".toList
def preSwap : List Char := "Swap:     ".toList

/-- The local accumulator tuple `mem_values` (line 186). -/
structure MemVals where
  rss : Nat
  pss : Nat
  uss : Nat
  swap : Nat
deriving DecidableEq

/-- One iteration of the `read_line` loop (lines 188-199): `l` is the
buffered line including its trailing newline.  `&line[..10]` on a shorter
line is the out-of-bounds panic; a recognized prefix parses the numeric
field after the fixed label width (`[5..]`, `[5..]`, `[14..]`, `[6..]`).
On a `Private_Cl`/`Private_Di`-prefixed buffered line shorter than 14
characters the `&line[14..]` slice is likewise out of bounds. -/
def procStep (v : MemVals) (l : List Char) : Except ProcErr MemVals :=
  if l.length < 10 then .error .sliceOutOfBounds
  else if l.take 10 = preRss then
    match parseValue (l.drop 5) with
    | some n => .ok { v with rss := n }
    | none => .error .invalidNumber
  else if l.take 10 = prePss then
    match parseValue (l.drop 5) with
    | some n => .ok { v with pss := n }
    | none => .error .invalidNumber
  else if l.take 10 = prePrivCl ∨ l.take 10 = prePrivDi then
    if l.length < 14 then .error .sliceOutOfBounds
    else
      match parseValue (l.drop 14) with
      | some n => .ok { v with uss := v.uss + n }
      | none => .error .invalidNumber
  else if l.take 10 = preSwap then
    match parseValue (l.drop 6) with
    | some n => .ok { v with swap := n }
    | none => .error .invalidNumber
  else .ok v

/-- The `read_line` loop over all buffered chunks. -/
def procFold (v : MemVals) : List (List Char) → Except ProcErr MemVals
  | [] => .ok v
  | l :: ls =>
      match procStep v l with
      | .ok v' => procFold v' ls
      | .error e => .error e

/-- Command-name truncation (lines 172-174): only a name longer than 50
characters is cut, to exactly 50. -/
def truncate50 (c : List Char) : List Char :=
  if 50 < c.length then c.take 50 else c

/-- `ProcessMemoryStats::update` (lines 170-207).  `cmd` is the result of
the external `get_cmd` lookup (modelled from the spec as an injected
capability, since `src/utils.rs` is not under `src/`); `content` is the
contents of the smaps_rollup source.  On error the record state at the
early return accompanies the error kind: `command` and `pid` are assigned
before the file is read, the four measured fields only after the whole
loop succeeds. -/
def procUpdate (s : ProcessMemoryStats) (pid : Nat) (cmd : Except Unit (List Char))
    (content : List Char) : Except (ProcErr × ProcessMemoryStats) ProcessMemoryStats :=
  match cmd with
  | .error _ => .error (.processLookupFailed, s)
  | .ok c =>
      let s1 := { s with command := truncate50 c, pid := pid }
      match procFold ⟨0, 0, 0, 0⟩ (chunksNL content) with
      | .error e => .error (e, s1)
      | .ok v => .ok { s1 with rss := v.rss, pss := v.pss, uss := v.uss, swap := v.swap }

/-! ### Specification-side characterizations

These functions express, per field, what the parse loops compute: the
value of the last matching line (`lastVal`, `lastPV`) and the running sum
of the `uss` contributions (`ussSum`).  They are compared against the
embedded code in the theorems below. -/

/-- Token-level worker for `headVal`. -/
def headValTokens (key : List Char) : List (List Char) → Option Nat
  | k :: v :: _ => if k = key then parseU64 v else none
  | _ => none

/-- Value a single system-summary line contributes to the field keyed by
`key`: its parsed value token when the line's key is `key`. -/
def headVal (key l : List Char) : Option Nat :=
  headValTokens key (wsTokens l)

/-- Value of the last line keyed by `key`; `none` when no line matches. -/
def lastVal (key : List Char) : List (List Char) → Option Nat
  | [] => none
  | l :: ls =>
      match lastVal key ls with
      | some v => some v
      | none => headVal key l

/-- Value a single buffered region-summary line contributes to the metric
with 10-character prefix `pre` whose numeric field starts at offset `d`. -/
def headPV (pre : List Char) (d : Nat) (l : List Char) : Option Nat :=
  if l.length < 10 then none
  else if l.take 10 = pre then parseValue (l.drop d) else none

/-- Value of the last buffered line matching prefix `pre`. -/
def lastPV (pre : List Char) (d : Nat) : List (List Char) → Option Nat
  | [] => none
  | l :: ls =>
      match lastPV pre d ls with
      | some v => some v
      | none => headPV pre d l

/-- Contribution of one buffered line to `uss` (a `Private_Clean` or
`Private_Dirty` value; 0 otherwise). -/
def ussContrib (l : List Char) : Nat :=
  (headPV prePrivCl 14 l).getD 0 + (headPV prePrivDi 14 l).getD 0

/-- Sum of all `uss` contributions. -/
def ussSum : List (List Char) → Nat
  | [] => 0
  | l :: ls => ussContrib l + ussSum ls

/-- A system-summary line the parse loop accepts (acceptance does not
depend on the record state). -/
def lineOk (l : List Char) : Bool := (applyMemLine MemoryStats.new l).isOk

/-- Well-formed system-summary line list: every line is accepted and each
of the 11 data-model keys occurs at most once. -/
def wfSys (ls : List (List Char)) : Prop :=
  (∀ l ∈ ls, lineOk l = true) ∧
  ∀ key ∈ keys11, ls.countP (fun l => (headVal key l).isSome) ≤ 1

/-- Raw fields entering the `used` formula are in `u64` range (holds for
`MemoryStats.new` and is preserved by parsing). -/
def rawBounded (s : MemoryStats) : Prop :=
  s.total < U64 ∧ s.free < U64 ∧ s.buffers < U64 ∧ s.cached < U64

/-! ### Concrete inputs for witnesses and counterexamples -/

def cmdX : List Char := "x".toList

def cmd51 : List Char :=
  "abcdefghijabcdefghijabcdefghijabcdefghijabcdefghijX".toList

def inpNL : List Char := "\n".toList

def lineXs : List Char := "xxxxxxxxxx".toList

def inpC2 : List Char := "MemTotal: 5\nx".toList

def inpBlank : List Char := "MemTotal: 1\n\n".toList

def inpMemUsed : List Char := "MemUsed: abc".toList

def inpUnderflow : List Char := "MemFree: 10".toList

def inpSwapUnder : List Char := "SwapFree: 5".toList

def lineMT1 : List Char := "MemTotal: 1".toList

def inpZswap : List Char := "Zswapped: 5".toList

def inpLastWrite : List Char := "MemTotal: 3\nMemTotal: 7".toList

def inpRollup : List Char :=
  ("Private_Clean:       100 kB\nPrivate_Clean:        50 kB\n" ++
   "Private_Dirty:        25 kB\nRss:            1200 kB\n" ++
   "Rss:             800 kB\nSwap:              7 kB\n").toList

def inpPermA : List Char := "MemTotal: 10\nMemFree: 4".toList

def inpPermB : List Char := "MemFree: 4\nMemTotal: 10".toList

def lUnrec : List Char := "SomeKey: 123".toList

def kUnrec : List Char := "SomeKey:".toList

def vUnrec : List Char := "123".toList

/-- Result record of `memUpdate` on `inpLastWrite` (for witnesses). -/
def rC4 : MemoryStats :=
  (memUpdate MemoryStats.new inpLastWrite).toOption.getD MemoryStats.new

/-- Result record of `memUpdate` on `inpZswap` (for witnesses). -/
def rC5 : MemoryStats :=
  (memUpdate MemoryStats.new inpZswap).toOption.getD MemoryStats.new

/-- Result record of `procUpdate` with the 51-character command (for
witnesses). -/
def rC9 : ProcessMemoryStats :=
  (procUpdate ProcessMemoryStats.new 7 (Except.ok cmd51) []).toOption.getD
    ProcessMemoryStats.new

/-- Result record of `memUpdate` on `inpLastWrite` reused for the
last-write-wins witness as its own binding. -/
def rC6m : MemoryStats :=
  (memUpdate MemoryStats.new inpLastWrite).toOption.getD MemoryStats.new

/-- Result record of `procUpdate` on `inpRollup` (for witnesses). -/
def rC6p : ProcessMemoryStats :=
  (procUpdate ProcessMemoryStats.new 1 (Except.ok cmdX) inpRollup).toOption.getD
    ProcessMemoryStats.new

/-- Fold result of `memFold` on `inpUnderflow` (for the C3 witness). -/
def sC3 : MemoryStats :=
  (memFold MemoryStats.new (rustLines inpUnderflow)).toOption.getD MemoryStats.new

/-- Fold result of `memFold` on `inpSwapUnder` (for the C3 witness). -/
def sC3b : MemoryStats :=
  (memFold MemoryStats.new (rustLines inpSwapUnder)).toOption.getD MemoryStats.new

/-! ### Helper lemmas -/

/-- Successful `memUpdate` factors through `memFold` and `derive`. -/
theorem memUpdate_ok_elim {s : MemoryStats} {c : List Char} {r : MemoryStats}
    (h : memUpdate s c = Except.ok r) :
    ∃ s', memFold s (rustLines c) = Except.ok s' ∧ r = derive s' := by
  unfold memUpdate memUpdateLines at h
  cases hf : memFold s (rustLines c) with
  | error e => rw [hf] at h; cases h
  | ok s' =>
      rw [hf] at h
      refine ⟨s', rfl, ?_⟩
      simpa [Except.map] using h.symm

/-- The triple wrapping subtraction equals one subtraction modulo 2^64. -/
theorem wsub3_eq (a b c d : Nat) :
    wsub (wsub (wsub a b) c) d =
      (((a : Int) - b - c - d) % (U64 : Int)).toNat := by
  simp only [wsub, U64]
  omega

/-- C3: for every system-summary input whose parsed values satisfy
free + buffers + cached > total or swap_free > swap_total,
MemoryStats::update still succeeds; the subtractions
used = total − free − buffers − cached and
swap_used = swap_total − swap_free neither fail nor clamp: each equals the
exact value reduced modulo 2^64 (release-mode wrapping), so the result is
well-defined. -/
theorem c3_underflow_wraps (s : MemoryStats) (c : List Char) (s' : MemoryStats)
    (hf : memFold s (rustLines c) = Except.ok s')
    (hlt : s'.total < s'.free + s'.buffers + s'.cached ∨
      s'.swap_total < s'.swap_free) :
    ∃ r, memUpdate s c = Except.ok r ∧
      r.used = (((s'.total : Int) - s'.free - s'.buffers - s'.cached) % (U64 : Int)).toNat ∧
      r.swap_used = (((s'.swap_total : Int) - s'.swap_free) % (U64 : Int)).toNat := by
  refine ⟨derive s', ?_, ?_, ?_⟩
  · simp [memUpdate, memUpdateLines, hf, Except.map]
  · show wsub (wsub (wsub s'.total s'.free) s'.buffers) s'.cached = _
    exact wsub3_eq s'.total s'.free s'.buffers s'.cached
  · rfl

/-- C3 witness: `MemFree: 10` with no `MemTotal` line underflows `used` to
2^64 − 10, and `SwapFree: 5` with no `SwapTotal` line underflows
`swap_used` to 2^64 − 5; both updates succeed. -/
theorem c3_underflow_wraps_witness :
    (memFold MemoryStats.new (rustLines inpUnderflow) = Except.ok sC3 ∧
     (sC3.total < sC3.free + sC3.buffers + sC3.cached ∨
       sC3.swap_total < sC3.swap_free) ∧
     (∃ r, memUpdate MemoryStats.new inpUnderflow = Except.ok r ∧
       r.used = (((sC3.total : Int) - sC3.free - sC3.buffers - sC3.cached) % (U64 : Int)).toNat ∧
       r.swap_used = (((sC3.swap_total : Int) - sC3.swap_free) % (U64 : Int)).toNat) ∧
     (memUpdate MemoryStats.new inpUnderflow).toOption.map MemoryStats.used =
       some 18446744073709551606) ∧
    (memFold MemoryStats.new (rustLines inpSwapUnder) = Except.ok sC3b ∧
     (sC3b.total < sC3b.free + sC3b.buffers + sC3b.cached ∨
       sC3b.swap_total < sC3b.swap_free) ∧
     (∃ r, memUpdate MemoryStats.new inpSwapUnder = Except.ok r ∧
       r.used = (((sC3b.total : Int) - sC3b.free - sC3b.buffers - sC3b.cached) % (U64 : Int)).toNat ∧
       r.swap_used = (((sC3b.swap_total : Int) - sC3b.swap_free) % (U64 : Int)).toNat) ∧
     (memUpdate MemoryStats.new inpSwapUnder).toOption.map MemoryStats.swap_used =
       some 18446744073709551611) :=
  ⟨⟨rfl, by decide,
    c3_underflow_wraps MemoryStats.new inpUnderflow sC3 rfl (by decide), by rfl⟩,
   ⟨rfl, by decide,
    c3_underflow_wraps MemoryStats.new inpSwapUnder sC3b rfl (by decide), by rfl⟩⟩

/-- C4: on every successful MemoryStats::update the seven derived fields
are computed from the final raw fields by the stated formulas, in
dependency order (used and swap_used feed used_virtual). -/
theorem c4_derived_formulas (s : MemoryStats) (c : List Char) (r : MemoryStats)
    (h : memUpdate s c = Except.ok r) :
    r.used = wsub (wsub (wsub r.total r.free) r.buffers) r.cached ∧
    r.swap_used = wsub r.swap_total r.swap_free ∧
    r.compression_factor = fdiv (natF64 r.zswap) (natF64 r.zswap_compressed) ∧
    r.totalvmem = wadd r.total r.swap_total ∧
    r.freevmem = wadd r.free r.swap_free ∧
    r.usedvmem = wadd r.used r.swap_used ∧
    r.availablevmem = wadd r.available r.swap_free := by
  obtain ⟨s', _, rfl⟩ := memUpdate_ok_elim h
  exact ⟨rfl, rfl, rfl, rfl, rfl, rfl, rfl⟩

/-- C4 witness: the formulas hold on the concrete result for
`inpLastWrite`. -/
theorem c4_derived_formulas_witness :
    memUpdate MemoryStats.new inpLastWrite = Except.ok rC4 ∧
    (rC4.used = wsub (wsub (wsub rC4.total rC4.free) rC4.buffers) rC4.cached ∧
     rC4.swap_used = wsub rC4.swap_total rC4.swap_free ∧
     rC4.compression_factor = fdiv (natF64 rC4.zswap) (natF64 rC4.zswap_compressed) ∧
     rC4.totalvmem = wadd rC4.total rC4.swap_total ∧
     rC4.freevmem = wadd rC4.free rC4.swap_free ∧
     rC4.usedvmem = wadd rC4.used rC4.swap_used ∧
     rC4.availablevmem = wadd rC4.available rC4.swap_free) :=
  ⟨rfl, c4_derived_formulas MemoryStats.new inpLastWrite rC4 rfl⟩

/-- C5: when the parsed zswap_compressed value is 0, a successful
MemoryStats::update yields a non-finite compression ratio: NaN when zswap
is also 0, positive infinity otherwise; the zero divisor is never an
error. -/
theorem c5_zero_divisor_nonfinite (s : MemoryStats) (c : List Char) (r : MemoryStats)
    (h : memUpdate s c = Except.ok r) (hz : r.zswap_compressed = 0) :
    r.compression_factor = (if r.zswap = 0 then F64.nan else F64.inf) ∧
    r.compression_factor.isFinite = false := by
  obtain ⟨s', _, rfl⟩ := memUpdate_ok_elim h
  have hz' : s'.zswap_compressed = 0 := hz
  have hratio : (derive s').compression_factor =
      fdiv (natF64 s'.zswap) (natF64 s'.zswap_compressed) := rfl
  have hzr : (derive s').zswap = s'.zswap := rfl
  rw [hratio, hzr, hz']
  constructor
  · by_cases hz0 : s'.zswap = 0
    · simp [natF64, fdiv, hz0]
    · have h1 : ((s'.zswap : ℚ)) ≠ 0 := by
        exact_mod_cast hz0
      have h2 : (0 : ℚ) < (s'.zswap : ℚ) := by
        exact_mod_cast Nat.pos_of_ne_zero hz0
      simp [natF64, fdiv, hz0, h1, h2]
  · by_cases hz0 : s'.zswap = 0
    · simp [natF64, fdiv, hz0, F64.isFinite]
    · have h1 : ((s'.zswap : ℚ)) ≠ 0 := by
        exact_mod_cast hz0
      have h2 : (0 : ℚ) < (s'.zswap : ℚ) := by
        exact_mod_cast Nat.pos_of_ne_zero hz0
      simp [natF64, fdiv, h1, h2, F64.isFinite]

/-- C5 witness: `Zswapped: 5` with no `Zswap:` line gives an infinite
ratio without error. -/
theorem c5_zero_divisor_nonfinite_witness :
    memUpdate MemoryStats.new inpZswap = Except.ok rC5 ∧
    rC5.zswap_compressed = 0 ∧
    (rC5.compression_factor = (if rC5.zswap = 0 then F64.nan else F64.inf) ∧
     rC5.compression_factor.isFinite = false) ∧
    rC5.compression_factor = F64.inf :=
  ⟨rfl, rfl, c5_zero_divisor_nonfinite MemoryStats.new inpZswap rC5 rfl rfl,
   by decide⟩

/-- C9: a command name longer than 50 characters is stored truncated to
exactly 50 characters; a name of 50 characters or fewer is stored
unchanged. -/
theorem c9_command_truncation (s : ProcessMemoryStats) (pid : Nat)
    (c content : List Char) (r : ProcessMemoryStats)
    (h : procUpdate s pid (Except.ok c) content = Except.ok r) :
    (50 < c.length → r.command = c.take 50 ∧ r.command.length = 50) ∧
    (c.length ≤ 50 → r.command = c) := by
  unfold procUpdate at h
  cases hf : procFold ⟨0, 0, 0, 0⟩ (chunksNL content) with
  | error e => rw [hf] at h; cases h
  | ok v =>
      rw [hf] at h
      injection h with h
      have hcmd : r.command = truncate50 c := by rw [← h]
      constructor
      · intro hlen
        rw [hcmd]
        constructor
        · simp [truncate50, hlen]
        · simp [truncate50, hlen, List.length_take]
          omega
      · intro hlen
        rw [hcmd]
        simp [truncate50]
        omega

/-- C9 witness: a 51-character command is stored as its first 50
characters. -/
theorem c9_command_truncation_witness :
    procUpdate ProcessMemoryStats.new 7 (Except.ok cmd51) [] = Except.ok rC9 ∧
    50 < cmd51.length ∧
    ((50 < cmd51.length → rC9.command = cmd51.take 50 ∧ rC9.command.length = 50) ∧
     (cmd51.length ≤ 50 → rC9.command = cmd51)) :=
  ⟨rfl, by decide, c9_command_truncation ProcessMemoryStats.new 7 cmd51 [] rC9 rfl⟩

/-- C2 counterexample: on the input `MemTotal: 5` followed by the
one-token line `x`, MemoryStats::update returns the format error but the
record has already been mutated: `total` is 5, not its prior value 0, so
the state is not unchanged on error. -/
theorem c2_counterexample :
    memUpdate MemoryStats.new inpC2 =
      Except.error (MemErr.badFileFormat, { MemoryStats.new with total := 5 }) ∧
    ({ MemoryStats.new with total := 5 } : MemoryStats) ≠ MemoryStats.new :=
  ⟨rfl, fun h => absurd (congrArg MemoryStats.total h) (by decide)⟩

/-- C2 as amended: on every erroring ProcessMemoryStats::update call the
four measured fields (rss, pss, uss, swap) are unchanged from before the
call (while pid and command may already have been assigned);
MemoryStats::update, by contrast, may leave raw fields parsed before the
failing line modified. -/
theorem c2_measured_fields_stable (s : ProcessMemoryStats) (pid : Nat)
    (cmd : Except Unit (List Char)) (content : List Char) (e : ProcErr)
    (st : ProcessMemoryStats)
    (h : procUpdate s pid cmd content = Except.error (e, st)) :
    st.rss = s.rss ∧ st.pss = s.pss ∧ st.uss = s.uss ∧ st.swap = s.swap := by
  unfold procUpdate at h
  cases cmd with
  | error u =>
      injection h with h
      rw [Prod.mk.injEq] at h
      obtain ⟨he, hst⟩ := h
      subst hst
      exact ⟨rfl, rfl, rfl, rfl⟩
  | ok c =>
      cases hf : procFold ⟨0, 0, 0, 0⟩ (chunksNL content) with
      | ok v => rw [hf] at h; cases h
      | error e2 =>
          rw [hf] at h
          injection h with h
          rw [Prod.mk.injEq] at h
          obtain ⟨he, hst⟩ := h
          subst hst
          exact ⟨rfl, rfl, rfl, rfl⟩

/-- C2 witness: a failing command lookup errors with all measured fields
unchanged. -/
theorem c2_measured_fields_stable_witness :
    procUpdate ProcessMemoryStats.new 1 (Except.error ()) [] =
      Except.error (ProcErr.processLookupFailed, ProcessMemoryStats.new) ∧
    (ProcessMemoryStats.new.rss = ProcessMemoryStats.new.rss ∧
     ProcessMemoryStats.new.pss = ProcessMemoryStats.new.pss ∧
     ProcessMemoryStats.new.uss = ProcessMemoryStats.new.uss ∧
     ProcessMemoryStats.new.swap = ProcessMemoryStats.new.swap) :=
  ⟨rfl, c2_measured_fields_stable ProcessMemoryStats.new 1 (Except.error ()) []
    ProcErr.processLookupFailed ProcessMemoryStats.new rfl⟩

/-- C1 counterexample: on a region-summary input consisting of one empty
line, ProcessMemoryStats::update does not skip the line: the slice
`&line[..10]` is out of bounds (the buffered line is the single character
`'\n'`), modelled by the `sliceOutOfBounds` outcome. -/
theorem c1_counterexample :
    procUpdate ProcessMemoryStats.new 1 (Except.ok cmdX) inpNL =
      Except.error (ProcErr.sliceOutOfBounds,
        { ProcessMemoryStats.new with command := cmdX, pid := 1 }) := rfl

/-- C1 as amended: a buffered region-summary line (its trailing newline
included) shorter than 10 characters causes an out-of-bounds slice instead
of being skipped; a buffered line of at least 10 characters matching none
of the five recognized prefixes is skipped without error and without
affecting any measured field. -/
theorem c1_short_line_oob_long_line_skipped (v : MemVals) (l : List Char)
    (ls : List (List Char)) :
    (l.length < 10 → procFold v (l :: ls) = Except.error ProcErr.sliceOutOfBounds) ∧
    (10 ≤ l.length →
      l.take 10 ≠ preRss → l.take 10 ≠ prePss → l.take 10 ≠ prePrivCl →
      l.take 10 ≠ prePrivDi → l.take 10 ≠ preSwap →
      procFold v (l :: ls) = procFold v ls) := by
  constructor
  · intro h
    simp [procFold, procStep, h]
  · intro h h1 h2 h3 h4 h5
    have h' : ¬ l.length < 10 := by omega
    simp [procFold, procStep, h', h1, h2, h3, h4, h5]

/-- C1 amended witness: a 10-character unrecognized line is skipped; the
buffered empty line aborts. -/
theorem c1_short_line_oob_long_line_skipped_witness :
    (10 ≤ lineXs.length ∧
     procFold ⟨0, 0, 0, 0⟩ [lineXs] = procFold ⟨0, 0, 0, 0⟩ []) ∧
    (inpNL.length < 10 ∧
     procFold ⟨0, 0, 0, 0⟩ [inpNL] = Except.error ProcErr.sliceOutOfBounds) :=
  ⟨⟨by decide,
    (c1_short_line_oob_long_line_skipped ⟨0, 0, 0, 0⟩ lineXs []).2 (by decide)
      (by decide) (by decide) (by decide) (by decide) (by decide)⟩,
   ⟨by decide,
    (c1_short_line_oob_long_line_skipped ⟨0, 0, 0, 0⟩ inpNL []).1 (by decide)⟩⟩

/-- C8 counterexample: an input containing a blank line errors with
`badFileFormat` instead of permitting it (`rustLines inpBlank` contains
the empty line). -/
theorem c8_counterexample :
    memUpdate MemoryStats.new inpBlank =
      Except.error (MemErr.badFileFormat, { MemoryStats.new with total := 1 }) ∧
    (rustLines inpBlank).contains [] = true :=
  ⟨rfl, by decide⟩

/-- C8 as amended: blank lines are not permitted in the system-summary
input: any input whose line list contains a blank line makes
MemoryStats::update fail (an earlier malformed line may fail first); when
the parse loop reaches the blank line, the failure is `badFileFormat`,
since a blank line has fewer than two whitespace-separated tokens. -/
theorem c8_blank_line_is_error :
    (∀ (s : MemoryStats) (pre post : List (List Char)),
      ∃ e st, memUpdateLines s (pre ++ [] :: post) = Except.error (e, st)) ∧
    (∀ (s s' : MemoryStats) (pre post : List (List Char)),
      memFold s pre = Except.ok s' →
      memUpdateLines s (pre ++ [] :: post) =
        Except.error (MemErr.badFileFormat, s')) := by
  constructor
  · intro s pre post
    induction pre generalizing s with
    | nil => exact ⟨.badFileFormat, s, rfl⟩
    | cons p ps ih =>
        cases hap : applyMemLine s p with
        | error e =>
            exact ⟨e, s, by simp [memUpdateLines, memFold, hap, Except.map]⟩
        | ok s1 =>
            obtain ⟨e, st, h⟩ := ih s1
            refine ⟨e, st, ?_⟩
            simp only [memUpdateLines, List.cons_append, memFold, hap] at h ⊢
            exact h
  · intro s s' pre post
    induction pre generalizing s with
    | nil =>
        intro hf
        injection hf with hf
        subst hf
        rfl
    | cons p ps ih =>
        intro hf
        rw [memFold] at hf
        cases hap : applyMemLine s p with
        | error e => rw [hap] at hf; cases hf
        | ok s1 =>
            rw [hap] at hf
            have h2 := ih s1 hf
            simp only [memUpdateLines, List.cons_append, memFold, hap] at h2 ⊢
            exact h2

/-- C8 amended witness: on `MemTotal: 1` followed by a blank line, the
loop reaches the blank line and fails with `badFileFormat`, the prior
line already parsed. -/
theorem c8_blank_line_is_error_witness :
    rustLines inpBlank = lineMT1 :: [] :: [] ∧
    memFold MemoryStats.new [lineMT1] =
      Except.ok { MemoryStats.new with total := 1 } ∧
    memUpdateLines MemoryStats.new ([lineMT1] ++ [] :: []) =
      Except.error (MemErr.badFileFormat, { MemoryStats.new with total := 1 }) ∧
    (∃ e st, memUpdateLines MemoryStats.new ([lineMT1] ++ [] :: []) =
      Except.error (e, st)) :=
  ⟨by decide, rfl,
   c8_blank_line_is_error.2 MemoryStats.new
     { MemoryStats.new with total := 1 } [lineMT1] [] rfl,
   c8_blank_line_is_error.1 MemoryStats.new [lineMT1] []⟩

/-- C7 counterexample: the line `MemUsed: abc` has a key outside the 11
recognized keys of the data model (§3), yet MemoryStats::update parses its
value token and fails with `invalidNumber` instead of silently ignoring
the line: the source's `match` also recognizes `MemUsed:`. -/
theorem c7_counterexample :
    memUpdate MemoryStats.new inpMemUsed =
      Except.error (MemErr.invalidNumber, MemoryStats.new) ∧
    kMemUsed ∉ keys11 ∧
    (wsTokens inpMemUsed).length = 2 :=
  ⟨rfl, by decide, by decide⟩

/-- A line with at least two tokens whose key is outside the source's 12
match arms leaves any record unchanged and never errors. -/
theorem applyMemLine_not_recognized (s : MemoryStats) (l k v : List Char)
    (rest : List (List Char)) (htok : wsTokens l = k :: v :: rest)
    (hk : k ∉ keys12) : applyMemLine s l = Except.ok s := by
  simp only [keys12, List.mem_cons, not_or] at hk
  obtain ⟨h1, h2, h3, h4, h5, h6, h7, h8, h9, h10, h11, h12, -⟩ := hk
  simp [applyMemLine, applyMemTokens, htok, h1, h2, h3, h4, h5, h6, h7, h8,
    h9, h10, h11, h12]

/-- Deleting a line that every state skips does not change the parse
loop's outcome. -/
theorem memFold_skip_mid (s : MemoryStats) (pre post : List (List Char))
    (l : List Char) (hskip : ∀ t, applyMemLine t l = Except.ok t) :
    memFold s (pre ++ l :: post) = memFold s (pre ++ post) := by
  induction pre generalizing s with
  | nil => simp [memFold, hskip s]
  | cons p ps ih =>
      simp only [List.cons_append, memFold]
      cases hap : applyMemLine s p with
      | ok s' => exact ih s'
      | error e => rfl

/-- C7 as amended: a system-summary line with at least two tokens whose
key is not one of the 12 keys the source matches (the 11 of §3 plus
`MemUsed:`, whose parsed value only feeds a field the derivation phase
overwrites) is silently ignored: no error regardless of the value token,
and no effect on the returned record.  (`MemUsed:` lines themselves have
their value parsed and can fail with `invalidNumber`.) -/
theorem c7_unrecognized_keys_ignored (s : MemoryStats)
    (pre post : List (List Char)) (l k v : List Char) (rest : List (List Char))
    (htok : wsTokens l = k :: v :: rest) (hk : k ∉ keys12) :
    memUpdateLines s (pre ++ l :: post) = memUpdateLines s (pre ++ post) := by
  unfold memUpdateLines
  rw [memFold_skip_mid s pre post l
    (fun t => applyMemLine_not_recognized t l k v rest htok hk)]

/-- C7 amended witness: the line `SomeKey: 123` is ignored. -/
theorem c7_unrecognized_keys_ignored_witness :
    wsTokens lUnrec = kUnrec :: vUnrec :: [] ∧
    kUnrec ∉ keys12 ∧
    memUpdateLines MemoryStats.new ([] ++ lUnrec :: []) =
      memUpdateLines MemoryStats.new ([] ++ []) :=
  ⟨by decide, by decide,
   c7_unrecognized_keys_ignored MemoryStats.new [] [] lUnrec kUnrec vUnrec []
     (by decide) (by decide)⟩

/-- Peeling one line off `lastVal` updates the default value. -/
theorem lastVal_cons_getD (key l : List Char) (ls : List (List Char)) (d : Nat) :
    (lastVal key (l :: ls)).getD d =
      (lastVal key ls).getD ((headVal key l).getD d) := by
  cases h1 : lastVal key ls <;> cases h2 : headVal key l <;>
    simp [lastVal, h1, h2]

/-- Effect of one accepted system-summary line on each raw field. -/
theorem applyMemLine_fields (s : MemoryStats) (l : List Char) (s' : MemoryStats)
    (h : applyMemLine s l = Except.ok s') :
    s'.total = (headVal kMemTotal l).getD s.total ∧
    s'.free = (headVal kMemFree l).getD s.free ∧
    s'.available = (headVal kMemAvailable l).getD s.available ∧
    s'.shared = (headVal kShmem l).getD s.shared ∧
    s'.buffers = (headVal kBuffers l).getD s.buffers ∧
    s'.cached = (headVal kCached l).getD s.cached ∧
    s'.swap_total = (headVal kSwapTotal l).getD s.swap_total ∧
    s'.swap_free = (headVal kSwapFree l).getD s.swap_free ∧
    s'.zswap = (headVal kZswapped l).getD s.zswap ∧
    s'.zswap_compressed = (headVal kZswap l).getD s.zswap_compressed ∧
    s'.swap_cached = (headVal kSwapCached l).getD s.swap_cached := by
  rw [applyMemLine] at h
  cases htok : wsTokens l with
  | nil =>
      rw [htok] at h
      cases h
  | cons k rest =>
      cases rest with
      | nil =>
          rw [htok] at h
          cases h
      | cons v rest2 =>
          rw [htok] at h
          simp only [applyMemTokens] at h
          by_cases h1 : k = kMemTotal
          · subst h1
            rw [if_pos rfl] at h
            cases hp : parseU64 v with
            | none => simp only [hp] at h; cases h
            | some n =>
                simp only [hp] at h
                injection h with h
                subst h
                simp only [headVal, htok, headValTokens]
                refine ⟨?_, ?_, ?_, ?_, ?_, ?_, ?_, ?_, ?_, ?_, ?_⟩ <;>
                  first
                    | (rw [if_pos trivial]; (try rw [hp]); rfl)
                    | (rw [if_neg (by decide)]; rfl)
          · rw [if_neg h1] at h
            by_cases h2 : k = kMemFree
            · subst h2
              rw [if_pos rfl] at h
              cases hp : parseU64 v with
              | none => simp only [hp] at h; cases h
              | some n =>
                  simp only [hp] at h
                  injection h with h
                  subst h
                  simp only [headVal, htok, headValTokens]
                  refine ⟨?_, ?_, ?_, ?_, ?_, ?_, ?_, ?_, ?_, ?_, ?_⟩ <;>
                    first
                      | (rw [if_pos trivial]; (try rw [hp]); rfl)
                      | (rw [if_neg (by decide)]; rfl)
            · rw [if_neg h2] at h
              by_cases h3 : k = kMemAvailable
              · subst h3
                rw [if_pos rfl] at h
                cases hp : parseU64 v with
                | none => simp only [hp] at h; cases h
                | some n =>
                    simp only [hp] at h
                    injection h with h
                    subst h
                    simp only [headVal, htok, headValTokens]
                    refine ⟨?_, ?_, ?_, ?_, ?_, ?_, ?_, ?_, ?_, ?_, ?_⟩ <;>
                      first
                        | (rw [if_pos trivial]; (try rw [hp]); rfl)
                        | (rw [if_neg (by decide)]; rfl)
              · rw [if_neg h3] at h
                by_cases h4 : k = kMemUsed
                · subst h4
                  rw [if_pos rfl] at h
                  cases hp : parseU64 v with
                  | none => simp only [hp] at h; cases h
                  | some n =>
                      simp only [hp] at h
                      injection h with h
                      subst h
                      simp only [headVal, htok, headValTokens]
                      refine ⟨?_, ?_, ?_, ?_, ?_, ?_, ?_, ?_, ?_, ?_, ?_⟩ <;>
                        first
                          | (rw [if_pos trivial]; (try rw [hp]); rfl)
                          | (rw [if_neg (by decide)]; rfl)
                · rw [if_neg h4] at h
                  by_cases h5 : k = kShmem
                  · subst h5
                    rw [if_pos rfl] at h
                    cases hp : parseU64 v with
                    | none => simp only [hp] at h; cases h
                    | some n =>
                        simp only [hp] at h
                        injection h with h
                        subst h
                        simp only [headVal, htok, headValTokens]
                        refine ⟨?_, ?_, ?_, ?_, ?_, ?_, ?_, ?_, ?_, ?_, ?_⟩ <;>
                          first
                            | (rw [if_pos trivial]; (try rw [hp]); rfl)
                            | (rw [if_neg (by decide)]; rfl)
                  · rw [if_neg h5] at h
                    by_cases h6 : k = kBuffers
                    · subst h6
                      rw [if_pos rfl] at h
                      cases hp : parseU64 v with
                      | none => simp only [hp] at h; cases h
                      | some n =>
                          simp only [hp] at h
                          injection h with h
                          subst h
                          simp only [headVal, htok, headValTokens]
                          refine ⟨?_, ?_, ?_, ?_, ?_, ?_, ?_, ?_, ?_, ?_, ?_⟩ <;>
                            first
                              | (rw [if_pos trivial]; (try rw [hp]); rfl)
                              | (rw [if_neg (by decide)]; rfl)
                    · rw [if_neg h6] at h
                      by_cases h7 : k = kCached
                      · subst h7
                        rw [if_pos rfl] at h
                        cases hp : parseU64 v with
                        | none => simp only [hp] at h; cases h
                        | some n =>
                            simp only [hp] at h
                            injection h with h
                            subst h
                            simp only [headVal, htok, headValTokens]
                            refine ⟨?_, ?_, ?_, ?_, ?_, ?_, ?_, ?_, ?_, ?_, ?_⟩ <;>
                              first
                                | (rw [if_pos trivial]; (try rw [hp]); rfl)
                                | (rw [if_neg (by decide)]; rfl)
                      · rw [if_neg h7] at h
                        by_cases h8 : k = kSwapTotal
                        · subst h8
                          rw [if_pos rfl] at h
                          cases hp : parseU64 v with
                          | none => simp only [hp] at h; cases h
                          | some n =>
                              simp only [hp] at h
                              injection h with h
                              subst h
                              simp only [headVal, htok, headValTokens]
                              refine ⟨?_, ?_, ?_, ?_, ?_, ?_, ?_, ?_, ?_, ?_, ?_⟩ <;>
                                first
                                  | (rw [if_pos trivial]; (try rw [hp]); rfl)
                                  | (rw [if_neg (by decide)]; rfl)
                        · rw [if_neg h8] at h
                          by_cases h9 : k = kSwapFree
                          · subst h9
                            rw [if_pos rfl] at h
                            cases hp : parseU64 v with
                            | none => simp only [hp] at h; cases h
                            | some n =>
                                simp only [hp] at h
                                injection h with h
                                subst h
                                simp only [headVal, htok, headValTokens]
                                refine ⟨?_, ?_, ?_, ?_, ?_, ?_, ?_, ?_, ?_, ?_, ?_⟩ <;>
                                  first
                                    | (rw [if_pos trivial]; (try rw [hp]); rfl)
                                    | (rw [if_neg (by decide)]; rfl)
                          · rw [if_neg h9] at h
                            by_cases h10 : k = kZswap
                            · subst h10
                              rw [if_pos rfl] at h
                              cases hp : parseU64 v with
                              | none => simp only [hp] at h; cases h
                              | some n =>
                                  simp only [hp] at h
                                  injection h with h
                                  subst h
                                  simp only [headVal, htok, headValTokens]
                                  refine ⟨?_, ?_, ?_, ?_, ?_, ?_, ?_, ?_, ?_, ?_, ?_⟩ <;>
                                    first
                                      | (rw [if_pos trivial]; (try rw [hp]); rfl)
                                      | (rw [if_neg (by decide)]; rfl)
                            · rw [if_neg h10] at h
                              by_cases h11 : k = kZswapped
                              · subst h11
                                rw [if_pos rfl] at h
                                cases hp : parseU64 v with
                                | none => simp only [hp] at h; cases h
                                | some n =>
                                    simp only [hp] at h
                                    injection h with h
                                    subst h
                                    simp only [headVal, htok, headValTokens]
                                    refine ⟨?_, ?_, ?_, ?_, ?_, ?_, ?_, ?_, ?_, ?_, ?_⟩ <;>
                                      first
                                        | (rw [if_pos trivial]; (try rw [hp]); rfl)
                                        | (rw [if_neg (by decide)]; rfl)
                              · rw [if_neg h11] at h
                                by_cases h12 : k = kSwapCached
                                · subst h12
                                  rw [if_pos rfl] at h
                                  cases hp : parseU64 v with
                                  | none => simp only [hp] at h; cases h
                                  | some n =>
                                      simp only [hp] at h
                                      injection h with h
                                      subst h
                                      simp only [headVal, htok, headValTokens]
                                      refine ⟨?_, ?_, ?_, ?_, ?_, ?_, ?_, ?_, ?_, ?_, ?_⟩ <;>
                                        first
                                          | (rw [if_pos trivial]; (try rw [hp]); rfl)
                                          | (rw [if_neg (by decide)]; rfl)
                                · rw [if_neg h12] at h
                                  injection h with h
                                  subst h
                                  simp only [headVal, htok, headValTokens]
                                  refine ⟨?_, ?_, ?_, ?_, ?_, ?_, ?_, ?_, ?_, ?_, ?_⟩ <;>
                                    rw [if_neg (by assumption)] <;> rfl

/-- Field-by-field characterization of the whole system parse loop:
last write wins, absent keys keep the initial value. -/
theorem memFold_fields (ls : List (List Char)) (s r : MemoryStats)
    (h : memFold s ls = Except.ok r) :
    r.total = (lastVal kMemTotal ls).getD s.total ∧
    r.free = (lastVal kMemFree ls).getD s.free ∧
    r.available = (lastVal kMemAvailable ls).getD s.available ∧
    r.shared = (lastVal kShmem ls).getD s.shared ∧
    r.buffers = (lastVal kBuffers ls).getD s.buffers ∧
    r.cached = (lastVal kCached ls).getD s.cached ∧
    r.swap_total = (lastVal kSwapTotal ls).getD s.swap_total ∧
    r.swap_free = (lastVal kSwapFree ls).getD s.swap_free ∧
    r.zswap = (lastVal kZswapped ls).getD s.zswap ∧
    r.zswap_compressed = (lastVal kZswap ls).getD s.zswap_compressed ∧
    r.swap_cached = (lastVal kSwapCached ls).getD s.swap_cached := by
  induction ls generalizing s with
  | nil =>
      injection h with h
      subst h
      simp [lastVal]
  | cons l ls ih =>
      rw [memFold] at h
      cases hap : applyMemLine s l with
      | error e => rw [hap] at h; cases h
      | ok s1 =>
          rw [hap] at h
          obtain ⟨i1, i2, i3, i4, i5, i6, i7, i8, i9, i10, i11⟩ := ih s1 h
          obtain ⟨t1, t2, t3, t4, t5, t6, t7, t8, t9, t10, t11⟩ :=
            applyMemLine_fields s l s1 hap
          refine ⟨?_, ?_, ?_, ?_, ?_, ?_, ?_, ?_, ?_, ?_, ?_⟩ <;>
            rw [lastVal_cons_getD]
          · rw [← t1]; exact i1
          · rw [← t2]; exact i2
          · rw [← t3]; exact i3
          · rw [← t4]; exact i4
          · rw [← t5]; exact i5
          · rw [← t6]; exact i6
          · rw [← t7]; exact i7
          · rw [← t8]; exact i8
          · rw [← t9]; exact i9
          · rw [← t10]; exact i10
          · rw [← t11]; exact i11

/-- Peeling one buffered line off `lastPV` updates the default value. -/
theorem lastPV_cons_getD (pre : List Char) (d : Nat) (l : List Char)
    (ls : List (List Char)) (v : Nat) :
    (lastPV pre d (l :: ls)).getD v =
      (lastPV pre d ls).getD ((headPV pre d l).getD v) := by
  cases h1 : lastPV pre d ls <;> cases h2 : headPV pre d l <;>
    simp [lastPV, h1, h2]

/-- Pairwise distinctness of the five recognized prefixes. -/
theorem preRss_ne_prePss : preRss ≠ prePss := by decide

theorem preRss_ne_prePrivCl : preRss ≠ prePrivCl := by decide

theorem preRss_ne_prePrivDi : preRss ≠ prePrivDi := by decide

theorem preRss_ne_preSwap : preRss ≠ preSwap := by decide

theorem prePss_ne_preRss : prePss ≠ preRss := by decide

theorem prePss_ne_prePrivCl : prePss ≠ prePrivCl := by decide

theorem prePss_ne_prePrivDi : prePss ≠ prePrivDi := by decide

theorem prePss_ne_preSwap : prePss ≠ preSwap := by decide

theorem prePrivCl_ne_preRss : prePrivCl ≠ preRss := by decide

theorem prePrivCl_ne_prePss : prePrivCl ≠ prePss := by decide

theorem prePrivCl_ne_prePrivDi : prePrivCl ≠ prePrivDi := by decide

theorem prePrivCl_ne_preSwap : prePrivCl ≠ preSwap := by decide

theorem prePrivDi_ne_preRss : prePrivDi ≠ preRss := by decide

theorem prePrivDi_ne_prePss : prePrivDi ≠ prePss := by decide

theorem prePrivDi_ne_prePrivCl : prePrivDi ≠ prePrivCl := by decide

theorem prePrivDi_ne_preSwap : prePrivDi ≠ preSwap := by decide

theorem preSwap_ne_preRss : preSwap ≠ preRss := by decide

theorem preSwap_ne_prePss : preSwap ≠ prePss := by decide

theorem preSwap_ne_prePrivCl : preSwap ≠ prePrivCl := by decide

theorem preSwap_ne_prePrivDi : preSwap ≠ prePrivDi := by decide

/-- Effect of one accepted buffered region-summary line on the four
accumulators. -/
theorem procStep_fields (v : MemVals) (l : List Char) (v' : MemVals)
    (h : procStep v l = Except.ok v') :
    v'.rss = (headPV preRss 5 l).getD v.rss ∧
    v'.pss = (headPV prePss 5 l).getD v.pss ∧
    v'.swap = (headPV preSwap 6 l).getD v.swap ∧
    v'.uss = v.uss + ussContrib l := by
  unfold procStep at h
  by_cases hlen : l.length < 10
  · rw [if_pos hlen] at h
    cases h
  · rw [if_neg hlen] at h
    by_cases h1 : l.take 10 = preRss
    · rw [if_pos h1] at h
      cases hp : parseValue (l.drop 5) with
      | none => simp only [hp] at h; cases h
      | some n =>
          simp only [hp] at h
          injection h with h
          subst h
          refine ⟨?_, ?_, ?_, ?_⟩ <;>
            simp [headPV, ussContrib, hlen, h1, hp, preRss_ne_prePss, preRss_ne_prePrivCl, preRss_ne_prePrivDi, preRss_ne_preSwap]
    · rw [if_neg h1] at h
      by_cases h2 : l.take 10 = prePss
      · rw [if_pos h2] at h
        cases hp : parseValue (l.drop 5) with
        | none => simp only [hp] at h; cases h
        | some n =>
            simp only [hp] at h
            injection h with h
            subst h
            refine ⟨?_, ?_, ?_, ?_⟩ <;>
              simp [headPV, ussContrib, hlen, h2, hp, prePss_ne_preRss, prePss_ne_prePrivCl, prePss_ne_prePrivDi, prePss_ne_preSwap]
      · rw [if_neg h2] at h
        by_cases h34 : l.take 10 = prePrivCl ∨ l.take 10 = prePrivDi
        · rw [if_pos h34] at h
          by_cases hlen14 : l.length < 14
          · rw [if_pos hlen14] at h
            cases h
          rw [if_neg hlen14] at h
          cases hp : parseValue (l.drop 14) with
          | none => simp only [hp] at h; cases h
          | some n =>
              simp only [hp] at h
              injection h with h
              subst h
              rcases h34 with hc | hd
              · refine ⟨?_, ?_, ?_, ?_⟩ <;>
                  simp [headPV, ussContrib, hlen, hc, hp, prePrivCl_ne_preRss, prePrivCl_ne_prePss, prePrivCl_ne_prePrivDi, prePrivCl_ne_preSwap]
              · refine ⟨?_, ?_, ?_, ?_⟩ <;>
                  simp [headPV, ussContrib, hlen, hd, hp, prePrivDi_ne_preRss, prePrivDi_ne_prePss, prePrivDi_ne_prePrivCl, prePrivDi_ne_preSwap]
        · rw [if_neg h34] at h
          obtain ⟨n3, n4⟩ := not_or.mp h34
          by_cases h5 : l.take 10 = preSwap
          · rw [if_pos h5] at h
            cases hp : parseValue (l.drop 6) with
            | none => simp only [hp] at h; cases h
            | some n =>
                simp only [hp] at h
                injection h with h
                subst h
                refine ⟨?_, ?_, ?_, ?_⟩ <;>
                  simp [headPV, ussContrib, hlen, h5, hp, preSwap_ne_preRss, preSwap_ne_prePss, preSwap_ne_prePrivCl, preSwap_ne_prePrivDi]
          · rw [if_neg h5] at h
            injection h with h
            subst h
            refine ⟨?_, ?_, ?_, ?_⟩ <;>
              simp [headPV, ussContrib, hlen, h1, h2, n3, n4, h5]

/-- Field-by-field characterization of the whole region-summary loop:
rss, pss, swap take the last matching value; uss accumulates. -/
theorem procFold_fields (ls : List (List Char)) (v r : MemVals)
    (h : procFold v ls = Except.ok r) :
    r.rss = (lastPV preRss 5 ls).getD v.rss ∧
    r.pss = (lastPV prePss 5 ls).getD v.pss ∧
    r.swap = (lastPV preSwap 6 ls).getD v.swap ∧
    r.uss = v.uss + ussSum ls := by
  induction ls generalizing v with
  | nil =>
      injection h with h
      subst h
      simp [lastPV, ussSum]
  | cons l ls ih =>
      rw [procFold] at h
      cases hap : procStep v l with
      | error e => rw [hap] at h; cases h
      | ok v1 =>
          rw [hap] at h
          obtain ⟨i1, i2, i3, i4⟩ := ih v1 h
          obtain ⟨t1, t2, t3, t4⟩ := procStep_fields v l v1 hap
          refine ⟨?_, ?_, ?_, ?_⟩
          · rw [lastPV_cons_getD, ← t1]; exact i1
          · rw [lastPV_cons_getD, ← t2]; exact i2
          · rw [lastPV_cons_getD, ← t3]; exact i3
          · rw [i4, t4, ussSum]; omega

/-- C6: in MemoryStats::update each raw field equals the value of the
last occurrence of its key (last write wins, no summing; an absent key
keeps the prior field value); in ProcessMemoryStats::update rss, pss and
swap each equal the value of the last matching buffered line while uss is
the running sum of all Private_Clean and Private_Dirty values. -/
theorem c6_last_write_semantics :
    (∀ (s : MemoryStats) (c : List Char) (r : MemoryStats),
      memUpdate s c = Except.ok r →
      r.total = (lastVal kMemTotal (rustLines c)).getD s.total ∧
      r.free = (lastVal kMemFree (rustLines c)).getD s.free ∧
      r.available = (lastVal kMemAvailable (rustLines c)).getD s.available ∧
      r.shared = (lastVal kShmem (rustLines c)).getD s.shared ∧
      r.buffers = (lastVal kBuffers (rustLines c)).getD s.buffers ∧
      r.cached = (lastVal kCached (rustLines c)).getD s.cached ∧
      r.swap_total = (lastVal kSwapTotal (rustLines c)).getD s.swap_total ∧
      r.swap_free = (lastVal kSwapFree (rustLines c)).getD s.swap_free ∧
      r.zswap = (lastVal kZswapped (rustLines c)).getD s.zswap ∧
      r.zswap_compressed = (lastVal kZswap (rustLines c)).getD s.zswap_compressed ∧
      r.swap_cached = (lastVal kSwapCached (rustLines c)).getD s.swap_cached) ∧
    (∀ (s : ProcessMemoryStats) (pid : Nat) (cmd content : List Char)
      (r : ProcessMemoryStats),
      procUpdate s pid (Except.ok cmd) content = Except.ok r →
      r.rss = (lastPV preRss 5 (chunksNL content)).getD 0 ∧
      r.pss = (lastPV prePss 5 (chunksNL content)).getD 0 ∧
      r.swap = (lastPV preSwap 6 (chunksNL content)).getD 0 ∧
      r.uss = ussSum (chunksNL content)) := by
  constructor
  · intro s c r h
    obtain ⟨s', hf, rfl⟩ := memUpdate_ok_elim h
    exact memFold_fields (rustLines c) s s' hf
  · intro s pid cmd content r h
    unfold procUpdate at h
    cases hf : procFold ⟨0, 0, 0, 0⟩ (chunksNL content) with
    | error e => rw [hf] at h; cases h
    | ok v =>
        rw [hf] at h
        injection h with h
        subst h
        obtain ⟨i1, i2, i3, i4⟩ :=
          procFold_fields (chunksNL content) ⟨0, 0, 0, 0⟩ v hf
        refine ⟨i1, i2, i3, ?_⟩
        show v.uss = ussSum (chunksNL content)
        rw [i4]
        simp

/-- C6 witness: a repeated `MemTotal:` key keeps the last value 7; the
rollup input sums uss to 175 and keeps the last rss 800 and swap 7. -/
theorem c6_last_write_semantics_witness :
    memUpdate MemoryStats.new inpLastWrite = Except.ok rC6m ∧
    (rC6m.total = (lastVal kMemTotal (rustLines inpLastWrite)).getD MemoryStats.new.total ∧
     rC6m.free = (lastVal kMemFree (rustLines inpLastWrite)).getD MemoryStats.new.free ∧
     rC6m.available = (lastVal kMemAvailable (rustLines inpLastWrite)).getD MemoryStats.new.available ∧
     rC6m.shared = (lastVal kShmem (rustLines inpLastWrite)).getD MemoryStats.new.shared ∧
     rC6m.buffers = (lastVal kBuffers (rustLines inpLastWrite)).getD MemoryStats.new.buffers ∧
     rC6m.cached = (lastVal kCached (rustLines inpLastWrite)).getD MemoryStats.new.cached ∧
     rC6m.swap_total = (lastVal kSwapTotal (rustLines inpLastWrite)).getD MemoryStats.new.swap_total ∧
     rC6m.swap_free = (lastVal kSwapFree (rustLines inpLastWrite)).getD MemoryStats.new.swap_free ∧
     rC6m.zswap = (lastVal kZswapped (rustLines inpLastWrite)).getD MemoryStats.new.zswap ∧
     rC6m.zswap_compressed = (lastVal kZswap (rustLines inpLastWrite)).getD MemoryStats.new.zswap_compressed ∧
     rC6m.swap_cached = (lastVal kSwapCached (rustLines inpLastWrite)).getD MemoryStats.new.swap_cached) ∧
    rC6m.total = 7 ∧
    procUpdate ProcessMemoryStats.new 1 (Except.ok cmdX) inpRollup = Except.ok rC6p ∧
    (rC6p.rss = (lastPV preRss 5 (chunksNL inpRollup)).getD 0 ∧
     rC6p.pss = (lastPV prePss 5 (chunksNL inpRollup)).getD 0 ∧
     rC6p.swap = (lastPV preSwap 6 (chunksNL inpRollup)).getD 0 ∧
     rC6p.uss = ussSum (chunksNL inpRollup)) ∧
    rC6p.rss = 800 ∧ rC6p.uss = 175 ∧ rC6p.swap = 7 :=
  ⟨rfl, c6_last_write_semantics.1 MemoryStats.new inpLastWrite rC6m rfl,
   by decide, rfl,
   c6_last_write_semantics.2 ProcessMemoryStats.new 1 cmdX inpRollup rC6p rfl,
   by decide, by decide, by decide⟩

/-- Characterization of `Except.isOk`. -/
theorem exceptIsOk_iff {e : Type} {a : Type} (x : Except e a) :
    x.isOk = true ↔ ∃ v, x = Except.ok v := by
  cases x <;> simp [Except.isOk, Except.toBool]

/-- Whether a system-summary line is accepted does not depend on the
record state. -/
theorem applyMemLine_ok_indep (s t : MemoryStats) (l : List Char)
    (s' : MemoryStats) (h : applyMemLine s l = Except.ok s') :
    ∃ t', applyMemLine t l = Except.ok t' := by
  rw [applyMemLine] at h ⊢
  cases htok : wsTokens l with
  | nil => rw [htok] at h; cases h
  | cons k rest =>
      cases rest with
      | nil => rw [htok] at h; cases h
      | cons v rest2 =>
          (try rw [htok] at h)
          (try rw [htok])
          simp only [applyMemTokens] at h ⊢
          by_cases h1 : k = kMemTotal
          · rw [if_pos h1] at h ⊢
            cases hp : parseU64 v with
            | none => simp only [hp] at h; cases h
            | some n => exact ⟨_, by simp only [hp]; rfl⟩
          · rw [if_neg h1] at h ⊢
            by_cases h2 : k = kMemFree
            · rw [if_pos h2] at h ⊢
              cases hp : parseU64 v with
              | none => simp only [hp] at h; cases h
              | some n => exact ⟨_, by simp only [hp]; rfl⟩
            · rw [if_neg h2] at h ⊢
              by_cases h3 : k = kMemAvailable
              · rw [if_pos h3] at h ⊢
                cases hp : parseU64 v with
                | none => simp only [hp] at h; cases h
                | some n => exact ⟨_, by simp only [hp]; rfl⟩
              · rw [if_neg h3] at h ⊢
                by_cases h4 : k = kMemUsed
                · rw [if_pos h4] at h ⊢
                  cases hp : parseU64 v with
                  | none => simp only [hp] at h; cases h
                  | some n => exact ⟨_, by simp only [hp]; rfl⟩
                · rw [if_neg h4] at h ⊢
                  by_cases h5 : k = kShmem
                  · rw [if_pos h5] at h ⊢
                    cases hp : parseU64 v with
                    | none => simp only [hp] at h; cases h
                    | some n => exact ⟨_, by simp only [hp]; rfl⟩
                  · rw [if_neg h5] at h ⊢
                    by_cases h6 : k = kBuffers
                    · rw [if_pos h6] at h ⊢
                      cases hp : parseU64 v with
                      | none => simp only [hp] at h; cases h
                      | some n => exact ⟨_, by simp only [hp]; rfl⟩
                    · rw [if_neg h6] at h ⊢
                      by_cases h7 : k = kCached
                      · rw [if_pos h7] at h ⊢
                        cases hp : parseU64 v with
                        | none => simp only [hp] at h; cases h
                        | some n => exact ⟨_, by simp only [hp]; rfl⟩
                      · rw [if_neg h7] at h ⊢
                        by_cases h8 : k = kSwapTotal
                        · rw [if_pos h8] at h ⊢
                          cases hp : parseU64 v with
                          | none => simp only [hp] at h; cases h
                          | some n => exact ⟨_, by simp only [hp]; rfl⟩
                        · rw [if_neg h8] at h ⊢
                          by_cases h9 : k = kSwapFree
                          · rw [if_pos h9] at h ⊢
                            cases hp : parseU64 v with
                            | none => simp only [hp] at h; cases h
                            | some n => exact ⟨_, by simp only [hp]; rfl⟩
                          · rw [if_neg h9] at h ⊢
                            by_cases h10 : k = kZswap
                            · rw [if_pos h10] at h ⊢
                              cases hp : parseU64 v with
                              | none => simp only [hp] at h; cases h
                              | some n => exact ⟨_, by simp only [hp]; rfl⟩
                            · rw [if_neg h10] at h ⊢
                              by_cases h11 : k = kZswapped
                              · rw [if_pos h11] at h ⊢
                                cases hp : parseU64 v with
                                | none => simp only [hp] at h; cases h
                                | some n => exact ⟨_, by simp only [hp]; rfl⟩
                              · rw [if_neg h11] at h ⊢
                                by_cases h12 : k = kSwapCached
                                · rw [if_pos h12] at h ⊢
                                  cases hp : parseU64 v with
                                  | none => simp only [hp] at h; cases h
                                  | some n => exact ⟨_, by simp only [hp]; rfl⟩
                                · rw [if_neg h12] at h ⊢
                                  exact ⟨t, rfl⟩

/-- If every line is individually accepted, the whole parse loop
succeeds, from any starting record. -/
theorem memFold_ok_intro (ls : List (List Char))
    (hall : ∀ l ∈ ls, ∃ s', applyMemLine MemoryStats.new l = Except.ok s') :
    ∀ s, ∃ r, memFold s ls = Except.ok r := by
  induction ls with
  | nil => exact fun s => ⟨s, rfl⟩
  | cons l ls ih =>
      intro s
      obtain ⟨w, hw⟩ := hall l (List.mem_cons_self l ls)
      obtain ⟨s1, hs1⟩ := applyMemLine_ok_indep MemoryStats.new s l w hw
      obtain ⟨r, hr⟩ := ih (fun m hm => hall m (List.mem_cons_of_mem l hm)) s1
      exact ⟨r, by rw [memFold, hs1]; exact hr⟩

/-- Parsed `u64` values are below 2^64. -/
theorem parseU64_lt (t : List Char) (n : Nat) (h : parseU64 t = some n) :
    n < U64 := by
  simp only [parseU64] at h
  split_ifs at h
  all_goals injection h with h
  all_goals subst h
  all_goals assumption

/-- Values contributed by a line are below 2^64. -/
theorem headVal_lt (key l : List Char) (n : Nat) (h : headVal key l = some n) :
    n < U64 := by
  rw [headVal] at h
  rcases htok : wsTokens l with - | ⟨k, - | ⟨v, rest⟩⟩ <;>
    (try rw [htok] at h) <;> simp only [headValTokens] at h
  all_goals try cases h
  split_ifs at h
  exact parseU64_lt v n h

/-- Last-occurrence values are below 2^64. -/
theorem lastVal_lt (key : List Char) (ls : List (List Char)) (n : Nat)
    (h : lastVal key ls = some n) : n < U64 := by
  induction ls with
  | nil => cases h
  | cons l ls ih =>
      rw [lastVal] at h
      cases hl : lastVal key ls with
      | some v => rw [hl] at h; injection h with h; subst h; exact ih hl
      | none => rw [hl] at h; exact headVal_lt key l n h

/-- No line matches the key exactly when `lastVal` is `none`. -/
theorem lastVal_eq_none_iff (key : List Char) (ls : List (List Char)) :
    lastVal key ls = none ↔ ∀ l ∈ ls, headVal key l = none := by
  induction ls with
  | nil => simp [lastVal]
  | cons l ls ih =>
      constructor
      · intro hc
        rw [lastVal] at hc
        cases hl : lastVal key ls with
        | some v => rw [hl] at hc; cases hc
        | none =>
            rw [hl] at hc
            intro m hm
            rcases List.mem_cons.mp hm with rfl | hm'
            · exact hc
            · exact (ih.mp hl) m hm'
      · intro hall
        rw [lastVal]
        have hl : lastVal key ls = none :=
          ih.mpr (fun m hm => hall m (List.mem_cons_of_mem l hm))
        rw [hl]
        exact hall l (List.mem_cons_self l ls)

/-- A `lastVal` hit comes from some member line. -/
theorem lastVal_mem (key : List Char) (ls : List (List Char)) (v : Nat)
    (h : lastVal key ls = some v) : ∃ l ∈ ls, headVal key l = some v := by
  induction ls with
  | nil => cases h
  | cons l ls ih =>
      rw [lastVal] at h
      cases hl : lastVal key ls with
      | some w =>
          simp only [hl] at h
          injection h with h
          subst h
          obtain ⟨m, hm, hmv⟩ := ih hl
          exact ⟨m, List.mem_cons_of_mem l hm, hmv⟩
      | none =>
          simp only [hl] at h
          exact ⟨l, List.mem_cons_self l ls, h⟩

/-- When at most one line matches the key, the single hit determines
`lastVal`. -/
theorem lastVal_of_unique (key : List Char) (ls : List (List Char))
    (l : List Char) (v : Nat) (hmem : l ∈ ls) (hv : headVal key l = some v)
    (hc : ls.countP (fun m => (headVal key m).isSome) ≤ 1) :
    lastVal key ls = some v := by
  induction ls with
  | nil => cases hmem
  | cons a ls ih =>
      rw [List.countP_cons] at hc
      rcases List.mem_cons.mp hmem with rfl | hm'
      · have hpa : (headVal key l).isSome = true := by rw [hv]; rfl
        simp only [hpa, if_true] at hc
        have h0 : ls.countP (fun m => (headVal key m).isSome) = 0 := by omega
        have hnone : ∀ m ∈ ls, headVal key m = none := by
          intro m hm
          have hnot := List.countP_eq_zero.mp h0 m hm
          cases he : headVal key m with
          | none => rfl
          | some w => rw [he] at hnot; exact absurd rfl hnot
        have hnl : lastVal key ls = none := (lastVal_eq_none_iff key ls).mpr hnone
        simp only [lastVal, hnl]
        exact hv
      · have htail : ls.countP (fun m => (headVal key m).isSome) ≤ 1 := by
          split at hc <;> omega
        have hsome : lastVal key ls = some v := ih hm' htail
        simp only [lastVal, hsome]

/-- Re-ordering the lines does not change `lastVal` when at most one line
matches the key. -/
theorem lastVal_perm (key : List Char) (ls1 ls2 : List (List Char))
    (hp : ls1.Perm ls2)
    (hc : ls1.countP (fun m => (headVal key m).isSome) ≤ 1) :
    lastVal key ls1 = lastVal key ls2 := by
  cases he : lastVal key ls1 with
  | none =>
      have hall := (lastVal_eq_none_iff key ls1).mp he
      have hall2 : ∀ m ∈ ls2, headVal key m = none :=
        fun m hm => hall m (hp.mem_iff.mpr hm)
      rw [(lastVal_eq_none_iff key ls2).mpr hall2]
  | some v =>
      obtain ⟨l, hl, hv⟩ := lastVal_mem key ls1 v he
      have hc2 : ls2.countP (fun m => (headVal key m).isSome) ≤ 1 := by
        rw [← hp.countP_eq]; exact hc
      exact (lastVal_of_unique key ls2 l v (hp.subset hl) hv hc2).symm

/-- Two parse-loop results agreeing on the 11 raw fields the derivation
reads yield the same derived record. -/
theorem derive_ext (s1 s2 : MemoryStats)
    (h1 : s1.total = s2.total) (h2 : s1.free = s2.free)
    (h3 : s1.available = s2.available) (h4 : s1.shared = s2.shared)
    (h5 : s1.buffers = s2.buffers) (h6 : s1.cached = s2.cached)
    (h7 : s1.swap_total = s2.swap_total) (h8 : s1.swap_free = s2.swap_free)
    (h9 : s1.zswap = s2.zswap) (h10 : s1.zswap_compressed = s2.zswap_compressed)
    (h11 : s1.swap_cached = s2.swap_cached) :
    derive s1 = derive s2 := by
  unfold derive
  ext <;> simp [h1, h2, h3, h4, h5, h6, h7, h8, h9, h10, h11]

/-- C10: for every well-formed system-summary input (each recognized key
at most once, every line accepted), re-ordering the lines does not change
the record produced by MemoryStats::update, and on success the result
satisfies used + free + buffers + cached == total (in wrapping `u64`
arithmetic). -/
theorem c10_reorder_invariance_and_sum (s : MemoryStats) (c1 c2 : List Char)
    (hb : rawBounded s) (hwf : wfSys (rustLines c1))
    (hperm : (rustLines c1).Perm (rustLines c2)) :
    memUpdate s c1 = memUpdate s c2 ∧
    (∀ r, memUpdate s c1 = Except.ok r →
      wadd (wadd (wadd r.used r.free) r.buffers) r.cached = r.total) := by
  obtain ⟨hok, hcount⟩ := hwf
  have hall1 : ∀ l ∈ rustLines c1, ∃ s', applyMemLine MemoryStats.new l = Except.ok s' :=
    fun l hl => (exceptIsOk_iff _).mp (hok l hl)
  have hall2 : ∀ l ∈ rustLines c2, ∃ s', applyMemLine MemoryStats.new l = Except.ok s' :=
    fun l hl => hall1 l (hperm.mem_iff.mpr hl)
  obtain ⟨r1, hr1⟩ := memFold_ok_intro (rustLines c1) hall1 s
  obtain ⟨r2, hr2⟩ := memFold_ok_intro (rustLines c2) hall2 s
  obtain ⟨a1, a2, a3, a4, a5, a6, a7, a8, a9, a10, a11⟩ :=
    memFold_fields (rustLines c1) s r1 hr1
  obtain ⟨b1, b2, b3, b4, b5, b6, b7, b8, b9, b10, b11⟩ :=
    memFold_fields (rustLines c2) s r2 hr2
  have eq1 := lastVal_perm kMemTotal _ _ hperm (hcount kMemTotal (by decide))
  have eq2 := lastVal_perm kMemFree _ _ hperm (hcount kMemFree (by decide))
  have eq3 := lastVal_perm kMemAvailable _ _ hperm (hcount kMemAvailable (by decide))
  have eq4 := lastVal_perm kShmem _ _ hperm (hcount kShmem (by decide))
  have eq5 := lastVal_perm kBuffers _ _ hperm (hcount kBuffers (by decide))
  have eq6 := lastVal_perm kCached _ _ hperm (hcount kCached (by decide))
  have eq7 := lastVal_perm kSwapTotal _ _ hperm (hcount kSwapTotal (by decide))
  have eq8 := lastVal_perm kSwapFree _ _ hperm (hcount kSwapFree (by decide))
  have eq9 := lastVal_perm kZswapped _ _ hperm (hcount kZswapped (by decide))
  have eq10 := lastVal_perm kZswap _ _ hperm (hcount kZswap (by decide))
  have eq11 := lastVal_perm kSwapCached _ _ hperm (hcount kSwapCached (by decide))
  have hderiv : derive r1 = derive r2 := by
    apply derive_ext
    · rw [a1, eq1]; exact b1.symm
    · rw [a2, eq2]; exact b2.symm
    · rw [a3, eq3]; exact b3.symm
    · rw [a4, eq4]; exact b4.symm
    · rw [a5, eq5]; exact b5.symm
    · rw [a6, eq6]; exact b6.symm
    · rw [a7, eq7]; exact b7.symm
    · rw [a8, eq8]; exact b8.symm
    · rw [a9, eq9]; exact b9.symm
    · rw [a10, eq10]; exact b10.symm
    · rw [a11, eq11]; exact b11.symm
  have hup1 : memUpdate s c1 = Except.ok (derive r1) := by
    unfold memUpdate memUpdateLines
    rw [hr1]
    rfl
  have hup2 : memUpdate s c2 = Except.ok (derive r2) := by
    unfold memUpdate memUpdateLines
    rw [hr2]
    rfl
  constructor
  · rw [hup1, hup2, hderiv]
  · intro r hr
    rw [hup1] at hr
    injection hr with hr
    subst hr
    have hgetD : ∀ (key : List Char) (d : Nat), d < U64 →
        (lastVal key (rustLines c1)).getD d < U64 := by
      intro key d hd
      cases hv : lastVal key (rustLines c1) with
      | some n => simpa using lastVal_lt key (rustLines c1) n hv
      | none => simpa using hd
    have hbt : r1.total < U64 := by rw [a1]; exact hgetD kMemTotal s.total hb.1
    have hbf : r1.free < U64 := by rw [a2]; exact hgetD kMemFree s.free hb.2.1
    have hbb : r1.buffers < U64 := by rw [a5]; exact hgetD kBuffers s.buffers hb.2.2.1
    have hbc : r1.cached < U64 := by rw [a6]; exact hgetD kCached s.cached hb.2.2.2
    show wadd (wadd (wadd
        (wsub (wsub (wsub r1.total r1.free) r1.buffers) r1.cached)
        r1.free) r1.buffers) r1.cached = r1.total
    simp only [U64] at hbt hbf hbb hbc
    simp only [wadd, wsub, U64]
    omega

/-- C10 witness: swapping the two lines of a concrete well-formed input
leaves the record unchanged and the sum identity holds. -/
theorem c10_reorder_invariance_and_sum_witness :
    rawBounded MemoryStats.new ∧ wfSys (rustLines inpPermA) ∧
    (rustLines inpPermA).Perm (rustLines inpPermB) ∧
    (memUpdate MemoryStats.new inpPermA = memUpdate MemoryStats.new inpPermB ∧
     (∀ r, memUpdate MemoryStats.new inpPermA = Except.ok r →
       wadd (wadd (wadd r.used r.free) r.buffers) r.cached = r.total)) :=
  ⟨by unfold rawBounded; decide, by unfold wfSys; decide,
   by decide,
   c10_reorder_invariance_and_sum MemoryStats.new inpPermA inpPermB
     (by unfold rawBounded; decide) (by unfold wfSys; decide) (by decide)⟩

end Zmem
